import Mathlib

/-!
Shallow embedding of the semantic-analysis phase of the crema compiler
(src/semantics.cpp, src/semantics.h).

Conventions of the embedding:
* C++ `std::vector` stacks (`vars`, `currType`) are Lean lists with the
  TOP of the stack (the vector's `back()`, index `currScope`) at the HEAD
  of the list; `push_back` is cons, `pop_back` is `tail`.  Within one
  scope, variables' keep insertion order: `push_back` appends at the end
  of the scope list and the duplicate/lookup loops scan from index 0,
  which is front-to-back traversal here as well.
* Type values are `Nat` bit patterns; the C++ list-flag mask
  `0xF0000000` and bitwise `|` become `0xF0000000` and `Nat.lor` (`|||`),
  and type equality is literal equality of the patterns, as in the C++
  `int` comparisons.
* Operations that can dereference a NULL pointer or index outside a
  vector (undefined behavior in the C++) return `Option`, with `none`
  standing for the crash.
* The recursion checker `checkRecursion` can fail to terminate, so it is
  embedded with an explicit fuel parameter: result `CRes.fuelOut` for
  every fuel value models a non-terminating run.
* Identifiers (`NIdentifier`) are `String`s compared for equality.
-/

/-- AST expression nodes used by semantic analysis.  `value t` is a leaf
literal whose computed type is the constant `t`; it is modelled from the
spec (the leaf `getType` overrides live in ast.h, which is not part of
src/): the spec's literals such as `1` or `"a"` are leaves with a fixed
known type. -/
inductive NExpression where
  | value (t : Nat)
  | list (value : List NExpression)
  | variableAccess (ident : String)
  | functionCall (ident : String) (args : List NExpression)

/-- NVariableDeclaration: identifier, declared base type, size marker
(1 = scalar, > 1 = list) and optional initializer expression. -/
structure NVariableDeclaration where
  ident : String
  type : Nat
  size : Nat
  initializationExpression : Option NExpression

/-- AST statement nodes used by semantic analysis. -/
inductive NStatement where
  | block (statements : List NStatement)
  | assignment (ident : String) (expr : NExpression)
  | ret (retExpr : NExpression)
  | functionCall (ident : String) (args : List NExpression)
  | variableDeclaration (decl : NVariableDeclaration)

/-- NFunctionDeclaration: identifier, declared return base type, the
`listReturn` flag, parameter declarations and the body (an NBlock). -/
structure NFunctionDeclaration where
  ident : String
  type : Nat
  listReturn : Bool
  variables' : List NVariableDeclaration
  body : NStatement

/-- SemanticContext: the stack of variable scopes, the parallel stack of
expected return types, and the flat global function registry
(structures are not needed by the properties verified here).  Stack top
= list head (see the header comment). -/
structure SemanticContext where
  vars : List (List NVariableDeclaration)
  currType : List Nat
  funcs : List NFunctionDeclaration

/-- SemanticContext::newScope — pushes an empty scope and the given
return type onto the two parallel stacks. -/
def SemanticContext.newScope (ctx : SemanticContext) (type : Nat) : SemanticContext :=
  { ctx with vars := [] :: ctx.vars, currType := type :: ctx.currType }

/-- SemanticContext::delScope — pops both stacks.  (`pop_back` on an
empty vector is undefined behavior in C++; `List.tail` of `[]` is `[]`,
and every call site below pops only what it pushed.) -/
def SemanticContext.delScope (ctx : SemanticContext) : SemanticContext :=
  { ctx with vars := ctx.vars.tail, currType := ctx.currType.tail }

/-- SemanticContext::registerVar — scans only the current (top) scope
for a duplicate identifier; on success appends the declaration to that
scope.  `none` models the out-of-bounds `vars[currScope]` access when no
scope exists. -/
def SemanticContext.registerVar (ctx : SemanticContext) (var : NVariableDeclaration) :
    Option (Bool × SemanticContext) :=
  match ctx.vars with
  | [] => none
  | scope :: rest =>
      if scope.any (fun v => var.ident == v.ident) then
        some (false, ctx)
      else
        some (true, { ctx with vars := (scope ++ [var]) :: rest })

/-- Front-to-back scan of one scope for an identifier (the inner loop of
SemanticContext::searchVars). -/
def searchScope (ident : String) : List NVariableDeclaration → Option NVariableDeclaration
  | [] => none
  | v :: vs => if ident == v.ident then some v else searchScope ident vs

/-- Innermost-to-outermost scan of the scope stack (the outer loop of
SemanticContext::searchVars; the C++ iterates indices `vars.size()-1`
down to `0`, which is head-to-tail order here). -/
def searchVarsStack (ident : String) :
    List (List NVariableDeclaration) → Option NVariableDeclaration
  | [] => none
  | scope :: rest =>
      match searchScope ident scope with
      | some v => some v
      | none => searchVarsStack ident rest

/-- SemanticContext::searchVars. -/
def SemanticContext.searchVars (ctx : SemanticContext) (ident : String) :
    Option NVariableDeclaration :=
  searchVarsStack ident ctx.vars

/-- Linear scan of the flat function registry (SemanticContext::searchFuncs). -/
def searchFuncsList (ident : String) :
    List NFunctionDeclaration → Option NFunctionDeclaration
  | [] => none
  | f :: fs => if ident == f.ident then some f else searchFuncsList ident fs

/-- SemanticContext::searchFuncs. -/
def SemanticContext.searchFuncs (ctx : SemanticContext) (ident : String) :
    Option NFunctionDeclaration :=
  searchFuncsList ident ctx.funcs

mutual

/-- `getType` dispatch for the expression nodes implemented in
semantics.cpp: NList, NVariableAccess, NFunctionCall; a `value` leaf
returns its fixed type (modelled from the spec, ast.h not in src/). -/
def NExpression.getType : NExpression → SemanticContext → Nat
  | .value t, _ => t
  | .list value, ctx => NListGetType value ctx
  | .variableAccess ident, ctx =>
      match ctx.searchVars ident with
      | some var => if var.size == 1 then var.type else 0xF0000000 ||| var.type
      | none => 0
  | .functionCall ident _, ctx =>
      match ctx.searchFuncs ident with
      | some func => if func.listReturn then 0xF0000000 ||| func.type else func.type
      | none => 0

/-- NList::getType — `0` for an empty list; otherwise the first
element's type with the list flag set when every later element has the
same type, and `0` at the first mismatch. -/
def NListGetType : List NExpression → SemanticContext → Nat
  | [], _ => 0
  | v0 :: rest, ctx =>
      if NListAllEq rest (NExpression.getType v0 ctx) ctx then
        0xF0000000 ||| NExpression.getType v0 ctx
      else 0

/-- The `i = 1 ..` loop of NList::getType: false at the first element
whose type differs from the first element's type. -/
def NListAllEq : List NExpression → Nat → SemanticContext → Bool
  | [], _, _ => true
  | v :: vs, type, ctx =>
      if NExpression.getType v ctx ≠ type then false else NListAllEq vs type ctx

end

/-- The argument loop of NFunctionCall::semanticAnalysis: positional
comparison of each argument's computed type with the corresponding
parameter's declared base type field (`variables'[i]->type`, no
effective-type computation).  Only reached with equal lengths. -/
def checkArgTypes (ctx : SemanticContext) :
    List NExpression → List NVariableDeclaration → Bool
  | [], _ => true
  | _ :: _, [] => true
  | a :: as, p :: ps =>
      if NExpression.getType a ctx ≠ p.type then false else checkArgTypes ctx as ps

/-- NFunctionCall::semanticAnalysis — resolve the callee, check the
argument count, then the positional argument-type loop. -/
def NFunctionCallSemanticAnalysis (ctx : SemanticContext) (ident : String)
    (args : List NExpression) : Bool :=
  match ctx.searchFuncs ident with
  | some func =>
      if func.variables'.length ≠ args.length then false
      else checkArgTypes ctx args func.variables'
  | none => false

/-- `semanticAnalysis` for expression nodes (used on initializers):
NFunctionCall's override is in semantics.cpp; the remaining expression
nodes are modelled from the spec, which specifies no further checks for
them (their default lives in ast.h, not in src/), so they analyze to
true.  Expression analysis does not mutate the context. -/
def NExpression.semanticAnalysisE : NExpression → SemanticContext → Bool
  | .functionCall ident args, ctx => NFunctionCallSemanticAnalysis ctx ident args
  | _, _ => true

mutual

/-- `semanticAnalysis` for the statement nodes of semantics.cpp.  The
result is `none` when the C++ run is undefined (NULL dereference or an
out-of-range vector access), otherwise `some (verdict, ctx')` with the
context as mutated by the call.

* NBlock (lines 163-174): push a scope carrying `currType.back()`,
  analyze the statements fail-fast, pop only after the loop finishes —
  the early `return false` inside the loop skips `delScope`.
* NAssignmentStatement (lines 214-230): line 217 computes
  `(var->size == 1) ? var->type : var->type | 0xF0000000` from the
  `searchVars` result BEFORE the `if (!var)` check of line 218, so an
  absent target is a NULL dereference (`none`); when the target exists
  the line-218 branch is dead and the effective type is compared with
  the right-hand side's type.
* NReturn (lines 232-240): compare the expression type with
  `currType.back()`.
* NFunctionCall statement (lines 276-298): `NFunctionCallSemanticAnalysis`.
* NVariableDeclaration (lines 318-336): register first, then — only if
  an initializer is present — require type equality with the effective
  declared type and the initializer's own analysis (in that
  short-circuit order). -/
def NStatement.semanticAnalysis : NStatement → SemanticContext → Option (Bool × SemanticContext)
  | .block statements, ctx =>
      match ctx.currType.head? with
      | none => none
      | some t => blockStmts statements (ctx.newScope t)
  | .assignment ident expr, ctx =>
      match ctx.searchVars ident with
      | none => none
      | some var =>
          let type := if var.size == 1 then var.type else var.type ||| 0xF0000000
          if type ≠ NExpression.getType expr ctx then some (false, ctx)
          else some (true, ctx)
  | .ret retExpr, ctx =>
      match ctx.currType.head? with
      | none => none
      | some t =>
          if NExpression.getType retExpr ctx ≠ t then some (false, ctx)
          else some (true, ctx)
  | .functionCall ident args, ctx =>
      some (NFunctionCallSemanticAnalysis ctx ident args, ctx)
  | .variableDeclaration decl, ctx =>
      match ctx.registerVar decl with
      | none => none
      | some (false, ctx1) => some (false, ctx1)
      | some (true, ctx1) =>
          match decl.initializationExpression with
          | none => some (true, ctx1)
          | some ie =>
              if NExpression.getType ie ctx1 ≠
                  (if decl.size == 1 then decl.type else 0xF0000000 ||| decl.type) then
                some (false, ctx1)
              else if NExpression.semanticAnalysisE ie ctx1 then some (true, ctx1)
              else some (false, ctx1)

/-- The statement loop of NBlock::semanticAnalysis, entered after the
scope push: fail-fast on the first false child (without popping), and
`delScope` + true only when the loop runs to completion. -/
def blockStmts : List NStatement → SemanticContext → Option (Bool × SemanticContext)
  | [], ctx => some (true, ctx.delScope)
  | s :: rest, ctx =>
      match NStatement.semanticAnalysis s ctx with
      | none => none
      | some (false, ctx1) => some (false, ctx1)
      | some (true, ctx1) => blockStmts rest ctx1

end

/-- Outcome of a fuel-bounded run of the recursion checker: a C++ run
that returns `b` (`ok b`), a NULL dereference (`crash`), or a run that
has not finished within the given fuel (`fuelOut`; `fuelOut` for every
fuel models non-termination). -/
inductive CRes where
  | ok (b : Bool)
  | crash
  | fuelOut
deriving DecidableEq

mutual

/-- `checkRecursion` for statements.  NBlock::checkRecursion (lines
184-192) scans its statements; NFunctionCall::checkRecursion (lines
194-202) reports true on an identifier match with the target function
and otherwise recurses into `searchFuncs(ident)->body` — dereferencing
the lookup result with no NULL check (`crash` when absent).  Fuel is
consumed exactly when descending into a callee's body, the only
non-structural step.  The remaining statement kinds use the default
`checkRecursion` (modelled from the spec; ast.h is not in src/), which
finds nothing. -/
def checkRecursionStmt (ctx : SemanticContext) (func : NFunctionDeclaration) :
    Nat → NStatement → CRes
  | fuel, .block statements => checkRecursionList ctx func fuel statements
  | fuel, .functionCall ident _ =>
      if func.ident == ident then .ok true
      else
        match ctx.searchFuncs ident with
        | none => .crash
        | some g =>
            match fuel with
            | 0 => .fuelOut
            | fuel' + 1 => checkRecursionStmt ctx func fuel' g.body
  | _, _ => .ok false
termination_by fuel s => (fuel, sizeOf s)

/-- The loop of NBlock::checkRecursion: first true short-circuits; a
crash or fuel exhaustion in a child propagates. -/
def checkRecursionList (ctx : SemanticContext) (func : NFunctionDeclaration) :
    Nat → List NStatement → CRes
  | _, [] => .ok false
  | fuel, s :: rest =>
      match checkRecursionStmt ctx func fuel s with
      | .ok true => .ok true
      | .ok false => checkRecursionList ctx func fuel rest
      | r => r
termination_by fuel l => (fuel, sizeOf l)

end

/-- The parameter-registration loop of NFunctionDeclaration's analysis
(lines 304-307): each parameter is registered into the fresh scope with
the boolean result discarded. -/
def registerParams : List NVariableDeclaration → SemanticContext → Option SemanticContext
  | [], ctx => some ctx
  | v :: vs, ctx =>
      match ctx.registerVar v with
      | none => none
      | some (_, ctx1) => registerParams vs ctx1

/-- NFunctionDeclaration::semanticAnalysis (lines 300-316): push a scope
whose expected return type is `listReturn ? type | 0xF0000000 : type`,
register the parameters, run the body's semantic analysis, then run the
recursion check over the body REGARDLESS of the body verdict, pop the
scope, and succeed iff the body passed and no recursion was found.
`none` covers a crash in either phase and a fuel-exhausted recursion
check. -/
def NFunctionDeclaration.semanticAnalysis (fuel : Nat) (f : NFunctionDeclaration)
    (ctx : SemanticContext) : Option (Bool × SemanticContext) :=
  let ctx1 := ctx.newScope (if f.listReturn then f.type ||| 0xF0000000 else f.type)
  match registerParams f.variables' ctx1 with
  | none => none
  | some ctx2 =>
      match NStatement.semanticAnalysis f.body ctx2 with
      | none => none
      | some (blockSA, ctx3) =>
          match checkRecursionStmt ctx3 f fuel f.body with
          | .ok blockRecur => some (blockSA && !blockRecur, ctx3.delScope)
          | _ => none

mutual

/-- The callee identifiers a `checkRecursion` traversal can inspect
directly in a statement: the call-statement identifiers reachable
through block nesting (the traversal descends into blocks and into
callee bodies only). -/
def NStatement.callIdents : NStatement → List String
  | .block statements => callIdentsList statements
  | .functionCall ident _ => [ident]
  | _ => []

/-- `callIdents` over a block's statement list. -/
def callIdentsList : List NStatement → List String
  | [] => []
  | s :: rest => NStatement.callIdents s ++ callIdentsList rest

end

/-! Concrete inputs used by the theorems below. -/

/-- A context holding one empty root scope, as the driver's root context
does before analysis. -/
def rootScopeCtx : SemanticContext := { vars := [[]], currType := [0], funcs := [] }

/-- A scalar parameter of base type 1. -/
def pScalar : NVariableDeclaration := { ident := "p", type := 1, size := 1, initializationExpression := none }

/-- A function with one scalar parameter of base type 1. -/
def fScalarParam : NFunctionDeclaration :=
  { ident := "f", type := 1, listReturn := false, variables' := [pScalar], body := .block [] }

/-- A list parameter (size 3) of base type 1. -/
def pList : NVariableDeclaration := { ident := "q", type := 1, size := 3, initializationExpression := none }

/-- A function with one list-declared parameter of base type 1. -/
def gListParam : NFunctionDeclaration :=
  { ident := "g", type := 1, listReturn := false, variables' := [pList], body := .block [] }

/-- Registry holding `fScalarParam` and `gListParam`. -/
def ctxCall : SemanticContext := { vars := [[]], currType := [0], funcs := [fScalarParam, gListParam] }

/-- A context expecting return type 5, for a failing block. -/
def ctxRet5 : SemanticContext := { vars := [[]], currType := [5], funcs := [] }

/-- The context left behind by the failing block: the pushed scope and
return type are still on the stacks. -/
def ctxRet5After : SemanticContext := { vars := [[], []], currType := [5, 5], funcs := [] }

/-- Function b, calling c. -/
def bFunc : NFunctionDeclaration :=
  { ident := "b", type := 1, listReturn := false, variables' := [], body := .block [.functionCall "c" []] }

/-- Function c, calling b. -/
def cFunc : NFunctionDeclaration :=
  { ident := "c", type := 1, listReturn := false, variables' := [], body := .block [.functionCall "b" []] }

/-- Function a: the recursion-check target not involved in the b/c cycle. -/
def aFunc : NFunctionDeclaration :=
  { ident := "a", type := 1, listReturn := false, variables' := [], body := .block [] }

/-- Registry with the two-function cycle b → c → b. -/
def ctxBC : SemanticContext := { vars := [[]], currType := [0], funcs := [bFunc, cFunc] }

/-- Function h, calling nothing. -/
def hFunc : NFunctionDeclaration :=
  { ident := "h", type := 1, listReturn := false, variables' := [], body := .block [] }

/-- Function g, calling h: an acyclic call graph together with `hFunc`. -/
def gCallsH : NFunctionDeclaration :=
  { ident := "g", type := 1, listReturn := false, variables' := [], body := .block [.functionCall "h" []] }

/-- A target function not in the g/h registry's call graph. -/
def tFunc : NFunctionDeclaration :=
  { ident := "t", type := 1, listReturn := false, variables' := [], body := .block [] }

/-- Registry with the acyclic call graph g → h. -/
def ctxGH : SemanticContext := { vars := [[]], currType := [0], funcs := [gCallsH, hFunc] }

/-- A function whose body calls the function itself directly. -/
def fSelf : NFunctionDeclaration :=
  { ident := "f", type := 1, listReturn := false, variables' := [], body := .block [.functionCall "f" []] }

/-- Registry where `fSelf` is registered (the driver registers a
function independently of its analysis). -/
def ctxFSelf : SemanticContext := { vars := [[]], currType := [0], funcs := [fSelf] }

/-- f calling g (for the indirect-recursion pair f → g → f). -/
def fIndir : NFunctionDeclaration :=
  { ident := "f", type := 1, listReturn := false, variables' := [], body := .block [.functionCall "g" []] }

/-- g calling f (for the indirect-recursion pair f → g → f). -/
def gIndir : NFunctionDeclaration :=
  { ident := "g", type := 1, listReturn := false, variables' := [], body := .block [.functionCall "f" []] }

/-- Registry with both members of the indirect-recursion pair. -/
def ctxIndir : SemanticContext := { vars := [[]], currType := [0], funcs := [fIndir, gIndir] }

/-- A function whose body calls an identifier registered nowhere. -/
def fBad : NFunctionDeclaration :=
  { ident := "f", type := 1, listReturn := false, variables' := [], body := .block [.functionCall "u" []] }

/-- Registry containing only `fBad`: the callee `u` is undefined. -/
def ctxBad : SemanticContext := { vars := [[]], currType := [0], funcs := [fBad] }

/-- An outer declaration of x (base type 1). -/
def xOuter : NVariableDeclaration := { ident := "x", type := 1, size := 1, initializationExpression := none }

/-- A shadowing inner declaration of x (base type 2). -/
def xInner : NVariableDeclaration := { ident := "x", type := 2, size := 1, initializationExpression := none }

/-- A scalar declaration of y : 1 whose initializer computes type 3 — a
declared-vs-initializer mismatch. -/
def yMismatch : NVariableDeclaration :=
  { ident := "y", type := 1, size := 1, initializationExpression := some (.value 3) }

/-! Helper lemmas. -/

/-- A successful or failed registration never changes the number of
scopes, the return-type stack or the function registry. -/
theorem registerVar_shape (ctx : SemanticContext) (v : NVariableDeclaration)
    (b : Bool) (ctx1 : SemanticContext)
    (h : ctx.registerVar v = some (b, ctx1)) :
    ctx1.vars.length = ctx.vars.length ∧ ctx1.currType = ctx.currType ∧
      ctx1.funcs = ctx.funcs := by
  unfold SemanticContext.registerVar at h
  cases hv : ctx.vars with
  | nil => rw [hv] at h; cases h
  | cons scope rest =>
      rw [hv] at h
      dsimp only at h
      by_cases hany : scope.any (fun w => v.ident == w.ident) = true
      · rw [if_pos hany] at h
        cases h
        exact ⟨by rw [hv], rfl, rfl⟩
      · rw [if_neg hany] at h
        cases h
        simp [hv]

/-- Unpacking a successful registration: the head scope had no
duplicate and the declaration was appended to it. -/
theorem registerVar_true_elim (ctx : SemanticContext) (v : NVariableDeclaration)
    (ctx1 : SemanticContext)
    (h : ctx.registerVar v = some (true, ctx1)) :
    ∃ scope rest, ctx.vars = scope :: rest ∧
      scope.any (fun w => v.ident == w.ident) = false ∧
      ctx1 = { ctx with vars := (scope ++ [v]) :: rest } := by
  unfold SemanticContext.registerVar at h
  cases hv : ctx.vars with
  | nil => rw [hv] at h; cases h
  | cons scope rest =>
      rw [hv] at h
      dsimp only at h
      by_cases hany : scope.any (fun w => v.ident == w.ident) = true
      · rw [if_pos hany] at h
        cases h
      · rw [if_neg hany] at h
        cases h
        exact ⟨scope, rest, rfl, by simpa using hany, rfl⟩

/-- Appending a declaration behind a scope with no duplicate of its
identifier makes it the one `searchScope` finds. -/
theorem searchScope_append_last (scope : List NVariableDeclaration)
    (v : NVariableDeclaration)
    (h : scope.any (fun w => v.ident == w.ident) = false) :
    searchScope v.ident (scope ++ [v]) = some v := by
  induction scope with
  | nil => simp [searchScope]
  | cons w ws ih =>
      rw [List.any_cons, Bool.or_eq_false_iff] at h
      rw [List.cons_append, searchScope, h.1]
      simpa using ih h.2

/-- After a successful registration the declaration resolves: it sits at
the end of the innermost scope, which `searchVars` scans first. -/
theorem registerVar_then_search (ctx ctx1 : SemanticContext)
    (v : NVariableDeclaration)
    (h : ctx.registerVar v = some (true, ctx1)) :
    ctx1.searchVars v.ident = some v := by
  obtain ⟨scope, rest, _, hany, hctx1⟩ := registerVar_true_elim ctx v ctx1 h
  subst hctx1
  unfold SemanticContext.searchVars searchVarsStack
  rw [searchScope_append_last scope v hany]

/-- The element-type loop of NList::getType succeeds exactly when every
element's computed type is the given one. -/
theorem NListAllEq_iff (l : List NExpression) (t : Nat) (ctx : SemanticContext) :
    NListAllEq l t ctx = true ↔ ∀ e ∈ l, NExpression.getType e ctx = t := by
  induction l with
  | nil => simp [NListAllEq]
  | cons v vs ih =>
      by_cases hv : NExpression.getType v ctx = t
      · rw [NListAllEq, if_neg (by simpa using hv)]
        simp [ih, hv]
      · rw [NListAllEq, if_pos (by simpa using hv)]
        constructor
        · intro hfalse; cases hfalse
        · intro hall; exact absurd (hall v (by simp)) hv

/-- A hit in the flat registry scan is a member with the searched
identifier. -/
theorem searchFuncsList_mem (ident : String) (l : List NFunctionDeclaration)
    (f : NFunctionDeclaration)
    (h : searchFuncsList ident l = some f) : f ∈ l ∧ f.ident = ident := by
  induction l with
  | nil => cases h
  | cons g gs ih =>
      rw [searchFuncsList] at h
      split at h
      · rename_i hbeq
        cases h
        exact ⟨by simp, (eq_of_beq hbeq).symm⟩
      · obtain ⟨h1, h2⟩ := ih h
        exact ⟨by simp [h1], h2⟩

/-- The positional argument loop equals an `all` over the zipped
argument/parameter lists. -/
theorem checkArgTypes_iff (ctx : SemanticContext) (args : List NExpression)
    (params : List NVariableDeclaration) :
    checkArgTypes ctx args params = true ↔
      ∀ ap ∈ args.zip params, NExpression.getType ap.1 ctx = ap.2.type := by
  induction args generalizing params with
  | nil => simp [checkArgTypes]
  | cons a as ih =>
      cases params with
      | nil => simp [checkArgTypes]
      | cons p ps =>
          by_cases ha : NExpression.getType a ctx = p.type
          · rw [checkArgTypes, if_neg (by simpa using ha)]
            simp [ih, ha]
          · rw [checkArgTypes, if_pos (by simpa using ha)]
            constructor
            · intro hfalse; cases hfalse
            · intro hall; exact absurd (hall (a, p) (by simp)) ha

/-- Parity of a registration result: lengths transfer through
`registerVar`. -/
theorem registerVar_parity (ctx : SemanticContext) (v : NVariableDeclaration)
    (b : Bool) (ctx1 : SemanticContext)
    (h : ctx.registerVar v = some (b, ctx1))
    (hp : ctx.vars.length = ctx.currType.length) :
    ctx1.vars.length = ctx1.currType.length := by
  obtain ⟨h1, h2, _⟩ := registerVar_shape ctx v b ctx1 h
  rw [h1, h2, hp]

mutual

/-- Every defined statement analysis preserves the equal-length
invariant of the scope stack and the return-type stack. -/
theorem sa_parity (s : NStatement) (ctx : SemanticContext) (b : Bool)
    (ctx' : SemanticContext)
    (h : NStatement.semanticAnalysis s ctx = some (b, ctx'))
    (hp : ctx.vars.length = ctx.currType.length) :
    ctx'.vars.length = ctx'.currType.length := by
  cases s with
  | block statements =>
      simp only [NStatement.semanticAnalysis] at h
      cases hct : ctx.currType.head? with
      | none => rw [hct] at h; cases h
      | some t =>
          rw [hct] at h
          exact blockStmts_parity statements (ctx.newScope t) b ctx' h
            (by simp [SemanticContext.newScope, hp])
  | assignment ident expr =>
      simp only [NStatement.semanticAnalysis] at h
      cases hsv : ctx.searchVars ident with
      | none => rw [hsv] at h; cases h
      | some var =>
          simp only [hsv] at h
          repeat' split at h
          all_goals (cases h; exact hp)
  | ret retExpr =>
      simp only [NStatement.semanticAnalysis] at h
      cases hct : ctx.currType.head? with
      | none => rw [hct] at h; cases h
      | some t =>
          simp only [hct] at h
          split at h
          · cases h; exact hp
          · cases h; exact hp
  | functionCall ident args =>
      simp only [NStatement.semanticAnalysis] at h
      cases h; exact hp
  | variableDeclaration decl =>
      simp only [NStatement.semanticAnalysis] at h
      cases hr : ctx.registerVar decl with
      | none => rw [hr] at h; cases h
      | some p =>
          obtain ⟨bb, ctx1⟩ := p
          rw [hr] at h
          have hp1 : ctx1.vars.length = ctx1.currType.length :=
            registerVar_parity ctx decl bb ctx1 hr hp
          cases bb with
          | false => simp only at h; cases h; exact hp1
          | true =>
              cases hie : decl.initializationExpression with
              | none => simp only [hie] at h; cases h; exact hp1
              | some ie =>
                  simp only [hie] at h
                  repeat' split at h
                  all_goals (cases h; exact hp1)

/-- The block statement loop preserves the equal-length invariant on
both its exit paths. -/
theorem blockStmts_parity (l : List NStatement) (ctx : SemanticContext) (b : Bool)
    (ctx' : SemanticContext)
    (h : blockStmts l ctx = some (b, ctx'))
    (hp : ctx.vars.length = ctx.currType.length) :
    ctx'.vars.length = ctx'.currType.length := by
  cases l with
  | nil =>
      simp only [blockStmts] at h
      cases h
      simp [SemanticContext.delScope, List.length_tail, hp]
  | cons s rest =>
      simp only [blockStmts] at h
      cases hsa : NStatement.semanticAnalysis s ctx with
      | none => rw [hsa] at h; cases h
      | some p =>
          obtain ⟨bb, ctx1⟩ := p
          rw [hsa] at h
          cases bb with
          | false =>
              dsimp only at h; cases h
              exact sa_parity s ctx false ctx' hsa hp
          | true =>
              dsimp only at h
              exact blockStmts_parity rest ctx1 b ctx' h
                (sa_parity s ctx true ctx1 hsa hp)

end

/-! Claim theorems. -/

/-- C1: the claim says an assignment whose target is in no scope fails
cleanly with the undefined-variable diagnostic and `false`, the lookup
result being unused before the absence check.  In the code the effective
type is computed from the `searchVars` result on line 217, BEFORE the
`if (!var)` check of line 218: with an absent target this dereferences
NULL, modelled as `none`, so the clean error branch is never reached. -/
theorem assignment_dereferences_null_lookup :
    rootScopeCtx.searchVars "x" = none ∧
    NStatement.semanticAnalysis (.assignment "x" (.value 1)) rootScopeCtx = none :=
  ⟨rfl, rfl⟩

/-- C3 counterexample: the claim's parenthetical says the scope pushed
by a block is popped even on the early-failure path.  On this concrete
failing block the exit context retains the pushed scope: the stack is
one deeper than at entry, so no pop happened. -/
theorem block_failure_scope_not_popped_cex :
    NStatement.semanticAnalysis (.block [.ret (.value 3)]) ctxRet5 =
      some (false, ctxRet5After) ∧
    ctxRet5After.vars.length = ctxRet5.vars.length + 1 :=
  ⟨rfl, rfl⟩

/-- C3 (amended): `newScope`, `delScope` and every defined statement
analysis — blocks included, on both the success and the early-failure
exit path — preserve `vars.length = currType.length`; on the failure
path the pushed scope is NOT popped, but the parity invariant still
holds because neither parallel stack is popped. -/
theorem stack_parity_invariant :
    (∀ (ctx : SemanticContext) (t : Nat), ctx.vars.length = ctx.currType.length →
      (ctx.newScope t).vars.length = (ctx.newScope t).currType.length)
    ∧ (∀ ctx : SemanticContext, ctx.vars.length = ctx.currType.length →
      ctx.delScope.vars.length = ctx.delScope.currType.length)
    ∧ (∀ (s : NStatement) (ctx : SemanticContext) (b : Bool) (ctx' : SemanticContext),
      NStatement.semanticAnalysis s ctx = some (b, ctx') →
      ctx.vars.length = ctx.currType.length →
      ctx'.vars.length = ctx'.currType.length) := by
  refine ⟨?_, ?_, ?_⟩
  · intro ctx t hp
    simp [SemanticContext.newScope, hp]
  · intro ctx hp
    simp [SemanticContext.delScope, List.length_tail, hp]
  · intro s ctx b ctx' h hp
    exact sa_parity s ctx b ctx' h hp

/-- C3 witness: the parity theorem applied to the concrete failing
block of the counterexample. -/
theorem stack_parity_invariant_witness :
    ctxRet5After.vars.length = ctxRet5After.currType.length :=
  stack_parity_invariant.2.2 (.block [.ret (.value 3)]) ctxRet5 false ctxRet5After rfl rfl

/-- C6: NList::getType returns 0 on an empty list; on a non-empty list
whose elements all compute the type of the first element it returns
that type with the list flag set; and when some element's type differs
from the first element's it returns 0 — literally the same sentinel
value as the empty-list and void cases. -/
theorem list_getType_spec :
    (∀ ctx : SemanticContext, NExpression.getType (.list []) ctx = 0)
    ∧ (∀ (ctx : SemanticContext) (v0 : NExpression) (rest : List NExpression),
        (∀ e ∈ rest, NExpression.getType e ctx = NExpression.getType v0 ctx) →
        NExpression.getType (.list (v0 :: rest)) ctx =
          0xF0000000 ||| NExpression.getType v0 ctx)
    ∧ (∀ (ctx : SemanticContext) (v0 e : NExpression) (rest : List NExpression),
        e ∈ rest → NExpression.getType e ctx ≠ NExpression.getType v0 ctx →
        NExpression.getType (.list (v0 :: rest)) ctx = 0) := by
  refine ⟨fun ctx => rfl, ?_, ?_⟩
  · intro ctx v0 rest hall
    have hok : NListAllEq rest (NExpression.getType v0 ctx) ctx = true :=
      (NListAllEq_iff rest _ ctx).mpr hall
    show NListGetType (v0 :: rest) ctx = _
    rw [NListGetType, if_pos hok]
  · intro ctx v0 e rest hmem hne
    have hbad : NListAllEq rest (NExpression.getType v0 ctx) ctx = false := by
      cases hb : NListAllEq rest (NExpression.getType v0 ctx) ctx
      · rfl
      · exact absurd ((NListAllEq_iff rest _ ctx).mp hb e hmem) hne
    show NListGetType (v0 :: rest) ctx = 0
    rw [NListGetType, if_neg (by simp [hbad])]

/-- C6 witness: a homogeneous list gets the flagged element type; a
mismatched list gets the 0 sentinel. -/
theorem list_getType_spec_witness :
    NExpression.getType (.list [.value 1, .value 1]) rootScopeCtx = 0xF0000000 ||| 1 ∧
    NExpression.getType (.list [.value 1, .value 2]) rootScopeCtx = 0 :=
  ⟨list_getType_spec.2.1 rootScopeCtx (.value 1) [.value 1]
      (by intro e he; simp at he; subst he; rfl),
   list_getType_spec.2.2 rootScopeCtx (.value 1) (.value 2) [.value 2]
      (by simp) (by simp [NExpression.getType])⟩

/-- C8: with a non-empty expected-return-type stack, NReturn's analysis
succeeds exactly when the return expression's computed type literally
equals the type at the top of that stack (list flag included in the
integer comparison), and leaves the context unchanged. -/
theorem return_type_check_spec (e : NExpression) (ctx : SemanticContext)
    (t : Nat) (rest : List Nat) (h : ctx.currType = t :: rest) :
    NStatement.semanticAnalysis (.ret e) ctx =
      some (decide (NExpression.getType e ctx = t), ctx) := by
  simp only [NStatement.semanticAnalysis, h, List.head?_cons]
  by_cases he : NExpression.getType e ctx = t
  · rw [if_neg (by simp [he])]
    simp [he]
  · rw [if_pos he]
    simp [he]

/-- C8 witness: a return of the expected type 5 succeeds in `ctxRet5`. -/
theorem return_type_check_spec_witness :
    NStatement.semanticAnalysis (.ret (.value 5)) ctxRet5 = some (true, ctxRet5) := by
  have := return_type_check_spec (.value 5) ctxRet5 5 [] rfl
  simpa using this

/-- C2 counterexample: the claim says a list-valued argument whose base
type equals the scalar parameter's base type passes.  Concretely,
`fScalarParam` takes one scalar parameter of base type 1 and the
argument `[1]` is list-valued with base type 1 (its computed type is
`0xF0000000 ||| 1`); the arity check passes (1 = 1), yet the call is
REJECTED, because the comparison is between the argument's full
computed type (flag included) and the parameter's declared base type. -/
theorem functionCall_list_arg_rejected_cex :
    ctxCall.searchFuncs "f" = some fScalarParam ∧
    NExpression.getType (.list [.value 1]) ctxCall = 0xF0000000 ||| 1 ∧
    NFunctionCallSemanticAnalysis ctxCall "f" [.list [.value 1]] = false ∧
    NStatement.semanticAnalysis (.functionCall "f" [.list [.value 1]]) ctxCall =
      some (false, ctxCall) :=
  ⟨rfl, rfl, rfl, rfl⟩

/-- C2 (amended): after the arity check passes, each argument's full
computed type is compared positionally against the declared base type
of the corresponding parameter — the parameter's list-ness is never
applied to the comparison — so the real leniency runs the other way: a
scalar argument whose type equals a list-declared parameter's base type
passes NFunctionCall::semanticAnalysis. -/
theorem functionCall_arg_check_spec :
    (∀ (ctx : SemanticContext) (id : String) (args : List NExpression)
        (func : NFunctionDeclaration),
        ctx.searchFuncs id = some func →
        func.variables'.length = args.length →
        NStatement.semanticAnalysis (.functionCall id args) ctx =
          some (checkArgTypes ctx args func.variables', ctx))
    ∧ (∀ (ctx : SemanticContext) (args : List NExpression)
        (params : List NVariableDeclaration),
        checkArgTypes ctx args params = true ↔
          ∀ ap ∈ args.zip params, NExpression.getType ap.1 ctx = ap.2.type)
    ∧ NFunctionCallSemanticAnalysis ctxCall "g" [.value 1] = true := by
  refine ⟨?_, checkArgTypes_iff, rfl⟩
  intro ctx id args func hf hlen
  simp only [NStatement.semanticAnalysis, NFunctionCallSemanticAnalysis, hf]
  rw [if_neg (by simp [hlen])]

/-- C2 witness: the argument-comparison characterization applied to the
concrete call of `gListParam` with one scalar argument. -/
theorem functionCall_arg_check_spec_witness :
    NStatement.semanticAnalysis (.functionCall "g" [.value 1]) ctxCall =
      some (checkArgTypes ctxCall [.value 1] gListParam.variables', ctxCall) :=
  functionCall_arg_check_spec.1 ctxCall "g" [.value 1] gListParam rfl rfl

/-- C7: register-then-resolve shadowing round-trip.  A declaration
`outer` registered successfully in the current scope does not block a
same-named `inner` declaration registered after a scope push (the
duplicate scan covers the top scope only); `searchVars`, scanning
innermost-first, then resolves the identifier to `inner`; and after the
inner scope is popped it resolves to `outer` again. -/
theorem shadowing_round_trip (ctx : SemanticContext)
    (outer inner : NVariableDeclaration) (t : Nat) (ctx1 : SemanticContext)
    (_hid : inner.ident = outer.ident)
    (hreg : ctx.registerVar outer = some (true, ctx1)) :
    ∃ ctx3, (ctx1.newScope t).registerVar inner = some (true, ctx3)
      ∧ ctx3.searchVars inner.ident = some inner
      ∧ ctx3.delScope.searchVars outer.ident = some outer := by
  have hreg2 : (ctx1.newScope t).registerVar inner =
      some (true, SemanticContext.mk ([inner] :: ctx1.vars) (t :: ctx1.currType) ctx1.funcs) := by
    simp [SemanticContext.registerVar, SemanticContext.newScope]
  refine ⟨_, hreg2, registerVar_then_search _ _ _ hreg2, ?_⟩
  have hdel :
      (SemanticContext.mk ([inner] :: ctx1.vars) (t :: ctx1.currType) ctx1.funcs).delScope =
        ctx1 := by
    simp [SemanticContext.delScope]
  rw [hdel]
  exact registerVar_then_search _ _ _ hreg

/-- C7 witness: the round trip at concrete declarations x:1 (outer) and
x:2 (inner). -/
theorem shadowing_round_trip_witness :
    ∃ ctx3,
      ((SemanticContext.mk [[xOuter]] [0] []).newScope 7).registerVar xInner =
        some (true, ctx3)
      ∧ ctx3.searchVars xInner.ident = some xInner
      ∧ ctx3.delScope.searchVars xOuter.ident = some xOuter :=
  shadowing_round_trip rootScopeCtx xOuter xInner 7
    (SemanticContext.mk [[xOuter]] [0] []) rfl rfl

/-- C9: variable-declaration checking is not atomic on error.  When
registration succeeded and the analysis nonetheless fails (mismatching
or failing initializer), the exit context is exactly the
post-registration context, in which the declaration resolves. -/
theorem variableDeclaration_not_atomic (ctx ctx1 ctx' : SemanticContext)
    (d : NVariableDeclaration)
    (hreg : ctx.registerVar d = some (true, ctx1))
    (hsa : NStatement.semanticAnalysis (.variableDeclaration d) ctx =
      some (false, ctx')) :
    ctx' = ctx1 ∧ ctx'.searchVars d.ident = some d := by
  simp only [NStatement.semanticAnalysis, hreg] at hsa
  cases hie : d.initializationExpression with
  | none => simp only [hie] at hsa; simp at hsa
  | some ie =>
      simp only [hie] at hsa
      repeat' split at hsa
      all_goals (cases hsa)
      all_goals exact ⟨rfl, registerVar_then_search _ _ _ hreg⟩

/-- C9 witness: the failing declaration y:1 = (expression of type 3)
stays registered and resolvable. -/
theorem variableDeclaration_not_atomic_witness :
    (SemanticContext.mk [[yMismatch]] [0] []).searchVars yMismatch.ident =
      some yMismatch :=
  (variableDeclaration_not_atomic rootScopeCtx
    (SemanticContext.mk [[yMismatch]] [0] [])
    (SemanticContext.mk [[yMismatch]] [0] []) yMismatch rfl rfl).2

mutual

/-- Fuel monotonicity: a finished recursion-check run keeps its result
under any larger fuel bound. -/
theorem checkRecursionStmt_mono (ctx : SemanticContext) (func : NFunctionDeclaration)
    (fuel fuel' : Nat) (s : NStatement) (b : Bool)
    (hle : fuel ≤ fuel')
    (h : checkRecursionStmt ctx func fuel s = .ok b) :
    checkRecursionStmt ctx func fuel' s = .ok b := by
  cases s with
  | block statements =>
      simp only [checkRecursionStmt] at h ⊢
      exact checkRecursionList_mono ctx func fuel fuel' statements b hle h
  | functionCall ident args =>
      simp only [checkRecursionStmt] at h ⊢
      by_cases hit : (func.ident == ident) = true
      · rw [if_pos hit] at h ⊢
        exact h
      · rw [if_neg hit] at h ⊢
        cases hsf : ctx.searchFuncs ident with
        | none =>
            rw [hsf] at h
            dsimp only at h
            cases h
        | some g =>
            rw [hsf] at h
            cases fuel with
            | zero => dsimp only at h; cases h
            | succ k =>
                dsimp only at h
                cases fuel' with
                | zero => omega
                | succ k' =>
                    dsimp only
                    exact checkRecursionStmt_mono ctx func k k' g.body b
                      (by omega) h
  | assignment ident expr => simpa [checkRecursionStmt] using h
  | ret retExpr => simpa [checkRecursionStmt] using h
  | variableDeclaration decl => simpa [checkRecursionStmt] using h
termination_by (fuel', sizeOf s)

/-- Fuel monotonicity for the block statement loop of the recursion
check. -/
theorem checkRecursionList_mono (ctx : SemanticContext) (func : NFunctionDeclaration)
    (fuel fuel' : Nat) (l : List NStatement) (b : Bool)
    (hle : fuel ≤ fuel')
    (h : checkRecursionList ctx func fuel l = .ok b) :
    checkRecursionList ctx func fuel' l = .ok b := by
  cases l with
  | nil => simpa [checkRecursionList] using h
  | cons s rest =>
      simp only [checkRecursionList] at h ⊢
      cases hs : checkRecursionStmt ctx func fuel s with
      | ok bs =>
          have hs' : checkRecursionStmt ctx func fuel' s = .ok bs :=
            checkRecursionStmt_mono ctx func fuel fuel' s bs hle hs
          rw [hs] at h
          rw [hs']
          cases bs with
          | true => dsimp only at h ⊢; exact h
          | false =>
              dsimp only at h ⊢
              exact checkRecursionList_mono ctx func fuel fuel' rest b hle h
      | crash => rw [hs] at h; dsimp only at h; cases h
      | fuelOut => rw [hs] at h; dsimp only at h; cases h
termination_by (fuel', sizeOf l)

end

/-- Every member of a list of naturals is bounded by its `foldr max 0`. -/
theorem mem_le_foldr_max (l : List Nat) (x : Nat) (hx : x ∈ l) :
    x ≤ l.foldr max 0 := by
  induction l with
  | nil => cases hx
  | cons a as ih =>
      rcases List.mem_cons.mp hx with h | h
      · subst h; exact le_max_left _ _
      · exact le_trans (ih h) (le_max_right _ _)

mutual

/-- Fuel adequacy on acyclic registries: if some ranking strictly
decreases from every registered function to each callee identifier in
its body and every reachable callee resolves, then the recursion check
on a statement finishes (`ok`) for some fuel. -/
theorem checkRecursion_adequate_stmt (ctx : SemanticContext)
    (func : NFunctionDeclaration) (rank : String → Nat)
    (hfuncs : ∀ g ∈ ctx.funcs, ∀ c ∈ NStatement.callIdents g.body,
        (∃ h, ctx.searchFuncs c = some h) ∧ rank c < rank g.ident)
    (n : Nat) (s : NStatement)
    (hs : ∀ c ∈ NStatement.callIdents s,
        rank c < n ∧ ∃ h, ctx.searchFuncs c = some h) :
    ∃ fuel b, checkRecursionStmt ctx func fuel s = .ok b := by
  cases s with
  | block statements =>
      obtain ⟨fuel, b, hb⟩ := checkRecursion_adequate_list ctx func rank hfuncs n
        statements
        (by
          intro c hc
          exact hs c (by simpa [NStatement.callIdents] using hc))
      exact ⟨fuel, b, by simpa [checkRecursionStmt] using hb⟩
  | functionCall ident args =>
      by_cases hit : (func.ident == ident) = true
      · exact ⟨0, true, by simp [checkRecursionStmt, hit]⟩
      · have hmem : ident ∈ NStatement.callIdents (.functionCall ident args) := by
          simp [NStatement.callIdents]
        obtain ⟨hrank, g, hg⟩ := hs ident hmem
        obtain ⟨hgmem, hgid⟩ := searchFuncsList_mem ident ctx.funcs g hg
        have hbody : ∀ c ∈ NStatement.callIdents g.body,
            rank c < rank ident ∧ ∃ h, ctx.searchFuncs c = some h := by
          intro c hc
          have hgc := hfuncs g hgmem c hc
          exact ⟨by rw [← hgid]; exact hgc.2, hgc.1⟩
        obtain ⟨fuel, b, hb⟩ := checkRecursion_adequate_stmt ctx func rank hfuncs
          (rank ident) g.body hbody
        refine ⟨fuel + 1, b, ?_⟩
        simp only [checkRecursionStmt]
        rw [if_neg hit, hg]
        exact hb
  | assignment ident expr => exact ⟨0, false, by simp [checkRecursionStmt]⟩
  | ret retExpr => exact ⟨0, false, by simp [checkRecursionStmt]⟩
  | variableDeclaration decl => exact ⟨0, false, by simp [checkRecursionStmt]⟩
termination_by (n, sizeOf s)

/-- Fuel adequacy for the statement loop of a block. -/
theorem checkRecursion_adequate_list (ctx : SemanticContext)
    (func : NFunctionDeclaration) (rank : String → Nat)
    (hfuncs : ∀ g ∈ ctx.funcs, ∀ c ∈ NStatement.callIdents g.body,
        (∃ h, ctx.searchFuncs c = some h) ∧ rank c < rank g.ident)
    (n : Nat) (l : List NStatement)
    (hl : ∀ c ∈ callIdentsList l,
        rank c < n ∧ ∃ h, ctx.searchFuncs c = some h) :
    ∃ fuel b, checkRecursionList ctx func fuel l = .ok b := by
  cases l with
  | nil => exact ⟨0, false, by simp [checkRecursionList]⟩
  | cons s rest =>
      obtain ⟨f1, b1, h1⟩ := checkRecursion_adequate_stmt ctx func rank hfuncs n s
        (by
          intro c hc
          refine hl c ?_
          simp only [callIdentsList, List.mem_append]
          exact Or.inl hc)
      obtain ⟨f2, b2, h2⟩ := checkRecursion_adequate_list ctx func rank hfuncs n rest
        (by
          intro c hc
          refine hl c ?_
          simp only [callIdentsList, List.mem_append]
          exact Or.inr hc)
      have h1' := checkRecursionStmt_mono ctx func f1 (max f1 f2) s b1
        (le_max_left _ _) h1
      have h2' := checkRecursionList_mono ctx func f2 (max f1 f2) rest b2
        (le_max_right _ _) h2
      cases b1 with
      | true => exact ⟨max f1 f2, true, by simp [checkRecursionList, h1']⟩
      | false => exact ⟨max f1 f2, b2, by simp [checkRecursionList, h1', h2']⟩
termination_by (n, sizeOf l)

end

/-- On the registry with the cycle b → c → b and target a (not in the
cycle), the recursion check exhausts every fuel bound from either entry
call: the traversal never finishes. -/
theorem ctxBC_nonterm (fuel : Nat) :
    checkRecursionStmt ctxBC aFunc fuel (.functionCall "b" []) = .fuelOut ∧
    checkRecursionStmt ctxBC aFunc fuel (.functionCall "c" []) = .fuelOut := by
  induction fuel with
  | zero =>
      constructor <;>
        simp [checkRecursionStmt, ctxBC, aFunc, bFunc, cFunc,
          SemanticContext.searchFuncs, searchFuncsList]
  | succ k ih =>
      have hb : ctxBC.searchFuncs "b" = some bFunc := rfl
      have hc : ctxBC.searchFuncs "c" = some cFunc := rfl
      constructor
      · have e1 : checkRecursionStmt ctxBC aFunc (k + 1) (.functionCall "b" []) =
            checkRecursionStmt ctxBC aFunc k bFunc.body := by
          simp only [checkRecursionStmt]
          rw [if_neg (by decide), hb]
        rw [e1]
        show checkRecursionStmt ctxBC aFunc k (.block [.functionCall "c" []]) = .fuelOut
        have hstep : checkRecursionList ctxBC aFunc k [.functionCall "c" []] = .fuelOut := by
          simp only [checkRecursionList]
          rw [ih.2]
        simp only [checkRecursionStmt]
        exact hstep
      · have e1 : checkRecursionStmt ctxBC aFunc (k + 1) (.functionCall "c" []) =
            checkRecursionStmt ctxBC aFunc k cFunc.body := by
          simp only [checkRecursionStmt]
          rw [if_neg (by decide), hc]
        rw [e1]
        show checkRecursionStmt ctxBC aFunc k (.block [.functionCall "b" []]) = .fuelOut
        have hstep : checkRecursionList ctxBC aFunc k [.functionCall "b" []] = .fuelOut := by
          simp only [checkRecursionList]
          rw [ih.1]
        simp only [checkRecursionStmt]
        exact hstep

/-- C4: checkRecursion carries no visited-set.  First conjunct: on the
registry whose call graph has the cycle b → c → b, checking a body that
calls b for the unrelated target a exhausts every fuel bound — the
traversal does not terminate.  Second conjunct: whenever the registry's
call graph is acyclic (witnessed by a ranking that strictly decreases
from each registered function to its callees) and every reachable
callee resolves, the traversal finishes with a verdict for some fuel. -/
theorem checkRecursion_termination_spec :
    (∀ fuel, checkRecursionStmt ctxBC aFunc fuel (.functionCall "b" []) = .fuelOut)
    ∧ (∀ (ctx : SemanticContext) (func : NFunctionDeclaration)
        (rank : String → Nat),
        (∀ g ∈ ctx.funcs, ∀ c ∈ NStatement.callIdents g.body,
          (∃ h, ctx.searchFuncs c = some h) ∧ rank c < rank g.ident) →
        ∀ s : NStatement,
          (∀ c ∈ NStatement.callIdents s, ∃ h, ctx.searchFuncs c = some h) →
          ∃ fuel b, checkRecursionStmt ctx func fuel s = .ok b) := by
  constructor
  · intro fuel
    exact (ctxBC_nonterm fuel).1
  · intro ctx func rank hfuncs s hres
    apply checkRecursion_adequate_stmt ctx func rank hfuncs
      (((NStatement.callIdents s).map rank).foldr max 0 + 1) s
    intro c hc
    refine ⟨?_, hres c hc⟩
    have hle : rank c ≤ ((NStatement.callIdents s).map rank).foldr max 0 :=
      mem_le_foldr_max _ _ (List.mem_map_of_mem rank hc)
    omega

/-- C4 witness: the termination half applied to the concrete acyclic
registry g → h with unrelated target t. -/
theorem checkRecursion_termination_spec_witness :
    ∃ fuel b, checkRecursionStmt ctxGH tFunc fuel (.functionCall "g" []) = .ok b :=
  checkRecursion_termination_spec.2 ctxGH tFunc
    (fun s => if s = "h" then 0 else 1)
    (by
      intro g hg c hc
      have hg' : g = gCallsH ∨ g = hFunc := by simpa [ctxGH] using hg
      rcases hg' with h | h
      · subst h
        have hch : c = "h" := by
          simpa [gCallsH, NStatement.callIdents, callIdentsList] using hc
        subst hch
        exact ⟨⟨hFunc, rfl⟩, by simp [gCallsH]⟩
      · subst h
        simp [hFunc, NStatement.callIdents, callIdentsList] at hc)
    (.functionCall "g" [])
    (by
      intro c hc
      have hcg : c = "g" := by simpa [NStatement.callIdents] using hc
      subst hcg
      exact ⟨gCallsH, rfl⟩)

/-- C5: NFunctionDeclaration::semanticAnalysis returns the conjunction
of the body verdict and the negated recursion verdict (first conjunct:
whenever both phases finish, the result is `blockSA && !blockRecur`
with the scope popped); in particular the function that calls itself
directly and the function that reaches itself through another function
are both rejected (second and third conjuncts). -/
theorem functionDeclaration_success_iff :
    (∀ (fuel : Nat) (f : NFunctionDeclaration) (ctx ctx2 ctx3 : SemanticContext)
        (sa r : Bool),
        registerParams f.variables'
            (ctx.newScope (if f.listReturn then f.type ||| 0xF0000000 else f.type)) =
          some ctx2 →
        NStatement.semanticAnalysis f.body ctx2 = some (sa, ctx3) →
        checkRecursionStmt ctx3 f fuel f.body = .ok r →
        NFunctionDeclaration.semanticAnalysis fuel f ctx =
          some (sa && !r, ctx3.delScope))
    ∧ (NFunctionDeclaration.semanticAnalysis 1 fSelf ctxFSelf).map Prod.fst =
        some false
    ∧ (NFunctionDeclaration.semanticAnalysis 2 fIndir ctxIndir).map Prod.fst =
        some false := by
  have hchar : ∀ (fuel : Nat) (f : NFunctionDeclaration)
      (ctx ctx2 ctx3 : SemanticContext) (sa r : Bool),
      registerParams f.variables'
          (ctx.newScope (if f.listReturn then f.type ||| 0xF0000000 else f.type)) =
        some ctx2 →
      NStatement.semanticAnalysis f.body ctx2 = some (sa, ctx3) →
      checkRecursionStmt ctx3 f fuel f.body = .ok r →
      NFunctionDeclaration.semanticAnalysis fuel f ctx =
        some (sa && !r, ctx3.delScope) := by
    intro fuel f ctx ctx2 ctx3 sa r h1 h2 h3
    simp only [NFunctionDeclaration.semanticAnalysis, h1, h2, h3]
  refine ⟨hchar, ?_, ?_⟩
  · have hchk : checkRecursionStmt (SemanticContext.mk [[], []] [1, 0] [fSelf])
        fSelf 1 fSelf.body = .ok true := by
      simp [checkRecursionStmt, checkRecursionList, fSelf]
    have h := hchar 1 fSelf ctxFSelf (SemanticContext.mk [[], []] [1, 0] [fSelf])
      (SemanticContext.mk [[], []] [1, 0] [fSelf]) true true rfl rfl hchk
    rw [h]
    rfl
  · have hchk : checkRecursionStmt (SemanticContext.mk [[], []] [1, 0]
        [fIndir, gIndir]) fIndir 2 fIndir.body = .ok true := by
      simp [checkRecursionStmt, checkRecursionList, fIndir, gIndir,
        SemanticContext.searchFuncs, searchFuncsList]
    have h := hchar 2 fIndir ctxIndir
      (SemanticContext.mk [[], []] [1, 0] [fIndir, gIndir])
      (SemanticContext.mk [[], []] [1, 0] [fIndir, gIndir]) true true rfl rfl hchk
    rw [h]
    rfl

/-- C5 witness: the characterization applied to the direct
self-recursive function, yielding the rejecting verdict. -/
theorem functionDeclaration_success_iff_witness :
    NFunctionDeclaration.semanticAnalysis 1 fSelf ctxFSelf =
      some (true && !true, (SemanticContext.mk [[], []] [1, 0] [fSelf]).delScope) :=
  functionDeclaration_success_iff.1 1 fSelf ctxFSelf
    (SemanticContext.mk [[], []] [1, 0] [fSelf])
    (SemanticContext.mk [[], []] [1, 0] [fSelf]) true true rfl rfl
    (by simp [checkRecursionStmt, checkRecursionList, fSelf])

/-- C10: NFunctionCall::checkRecursion dereferences the `searchFuncs`
result with no absence check: on any non-target call whose callee is
unregistered it crashes (first conjunct), and the caller does not
guarantee the precondition — for `fBad`, whose body calls the undefined
`u`, the body's semantic analysis already reports failure (second
conjunct), yet NFunctionDeclaration::semanticAnalysis still runs the
recursion check, which dereferences NULL (third conjunct, `none` for
every fuel). -/
theorem checkRecursion_unchecked_deref :
    (∀ (ctx : SemanticContext) (f : NFunctionDeclaration) (id : String)
        (args : List NExpression) (fuel : Nat),
        (f.ident == id) = false → ctx.searchFuncs id = none →
        checkRecursionStmt ctx f fuel (.functionCall id args) = .crash)
    ∧ (NStatement.semanticAnalysis fBad.body (ctxBad.newScope 1)).map Prod.fst =
        some false
    ∧ (∀ fuel, NFunctionDeclaration.semanticAnalysis fuel fBad ctxBad = none) := by
  refine ⟨?_, rfl, ?_⟩
  · intro ctx f id args fuel hbeq hnone
    simp only [checkRecursionStmt]
    rw [if_neg (by simp [hbeq]), hnone]
  · intro fuel
    have hred : NFunctionDeclaration.semanticAnalysis fuel fBad ctxBad =
        (match checkRecursionStmt (SemanticContext.mk [[], [], []] [1, 1, 0] [fBad])
            fBad fuel fBad.body with
          | .ok blockRecur =>
              some (false && !blockRecur,
                (SemanticContext.mk [[], [], []] [1, 1, 0] [fBad]).delScope)
          | _ => none) := rfl
    have hchk : checkRecursionStmt (SemanticContext.mk [[], [], []] [1, 1, 0] [fBad])
        fBad fuel fBad.body = .crash := by
      simp [checkRecursionStmt, checkRecursionList, fBad,
        SemanticContext.searchFuncs, searchFuncsList]
    rw [hred, hchk]

/-- C10 witness: the crash conjunct at the concrete unregistered callee
`u`. -/
theorem checkRecursion_unchecked_deref_witness :
    checkRecursionStmt ctxBad fBad 0 (.functionCall "u" []) = .crash :=
  checkRecursion_unchecked_deref.1 ctxBad fBad "u" [] 0 rfl rfl
